import Mathlib

/-!
Verification of the Gas Town agent-identity codec, prefix registry, and
merge-slot mutual-exclusion primitive.

Strings are modelled as lists of characters (`Str`); Go's `string` values
are immutable character sequences, so this is a faithful shallow embedding.
Fallible Go functions returning `(*T, error)` are modelled as
`Except ParseErr T`; the error constructors carry the same context the Go
`fmt.Errorf` messages embed.
-/

set_option autoImplicit false

/-- Character-list model of Go strings. -/
abbrev Str := List Char

/-- Split a string at the first occurrence of `c`, returning the part before
and the part after.  Mirrors Go `strings.Index` followed by slicing
(`s[:idx]`, `s[idx+1:]`); `none` when `c` does not occur. -/
def splitFirst (c : Char) : Str → Option (Str × Str)
  | [] => none
  | x :: xs =>
    if x = c then some ([], xs)
    else
      match splitFirst c xs with
      | none => none
      | some (a, b) => some (x :: a, b)

/-- Go `strings.Split(s, c)` for a one-character separator. -/
def splitOnChar (c : Char) : Str → List Str
  | [] => [[]]
  | x :: xs =>
    let r := splitOnChar c xs
    if x = c then [] :: r
    else (x :: r.headD []) :: r.tail

/-- Go `strings.TrimSpace`: strip whitespace from both ends. -/
def trimSpace (s : Str) : Str :=
  ((s.dropWhile Char.isWhitespace).reverse.dropWhile Char.isWhitespace).reverse

/-- Go `strings.TrimSuffix(s, "/")`: drop one trailing slash if present. -/
def trimSlashSuffix (s : Str) : Str :=
  if s.getLast? = some '/' then s.dropLast else s

/-- The prefix registry (`internal/session/registry.go`): two maps kept in
sync by `RegisterPrefix`.  Go maps are modelled as association lists whose
most recent binding wins (`lookupStr` takes the first hit, and
`RegisterPrefix` prepends, which matches Go's overwrite-on-assign). -/
structure Registry where
  prefixToRig : List (Str × Str)
  rigToPrefix : List (Str × Str)
deriving DecidableEq, Repr

/-- First-match association-list lookup (Go map indexing). -/
def lookupStr : List (Str × Str) → Str → Option Str
  | [], _ => none
  | (k, v) :: rest, key => if k = key then some v else lookupStr rest key

/-- The initial empty registry. -/
def emptyRegistry : Registry := ⟨[], []⟩

/-- `RegisterPrefix(prefix, rigName)`: store the mapping in both directions. -/
def RegisterPrefix (reg : Registry) (pfx rigName : Str) : Registry :=
  ⟨(pfx, rigName) :: reg.prefixToRig, (rigName, pfx) :: reg.rigToPrefix⟩

/-- `RigForPrefix`: rig name for a session prefix, or `""` if unknown. -/
def RigForPrefix (reg : Registry) (pfx : Str) : Str :=
  (lookupStr reg.prefixToRig pfx).getD []

/-- `PrefixForRig`: session prefix for a rig name, or `""` if unknown. -/
def PrefixForRig (reg : Registry) (rigName : Str) : Str :=
  (lookupStr reg.rigToPrefix rigName).getD []

/-- A list of `RegisterPrefix` calls applied to the empty registry (the head
of the list is the most recent call). -/
def applyRegs : List (Str × Str) → Registry
  | [] => emptyRegistry
  | (p, r) :: rest => RegisterPrefix (applyRegs rest) p r

/-- Agent roles (`Role` in the session package). -/
inductive Role where
  | mayor
  | deacon
  | witness
  | refinery
  | crew
  | polecat
deriving DecidableEq, Repr

/-- `AgentIdentity`: role, rig (project), name, and session prefix.  Field
`pfx` is the source's `Prefix` field (that word is reserved in Lean). -/
structure AgentIdentity where
  role : Role
  rig : Str
  name : Str
  pfx : Str
deriving DecidableEq, Repr

/-- Typed parse failures; each constructor corresponds to one `fmt.Errorf`
site and carries the offending string that the Go message embeds. -/
inductive ParseErr where
  | emptyAddress
  | overseerNoSession
  | invalidAddress (address : Str)
  | unknownHQRole (session : Str)
  | noSeparator (session : Str)
  | emptyCrewName (session : Str)
  | emptyName (session : Str)
deriving DecidableEq, Repr

/-- The rig-level tail of `ParseAddress` (after the town-level special cases
have been ruled out). -/
def parseRigAddress (reg : Registry) (address0 : Str) : Except ParseErr AgentIdentity :=
  let address := trimSlashSuffix address0
  let parts := splitOnChar '/' address
  if parts.length < 2 then .error (.invalidAddress address)
  else
    let rig := parts.headD []
    let pfx := PrefixForRig reg rig
    if parts.length = 2 then
      let name := parts.getD 1 []
      if name = "witness".toList then .ok ⟨.witness, rig, [], pfx⟩
      else if name = "refinery".toList then .ok ⟨.refinery, rig, [], pfx⟩
      else if name = "crew".toList ∨ name = "polecats".toList then
        .error (.invalidAddress address)
      else .ok ⟨.polecat, rig, name, pfx⟩
    else if parts.length = 3 then
      let kind := parts.getD 1 []
      let name := parts.getD 2 []
      if kind = "crew".toList then .ok ⟨.crew, rig, name, pfx⟩
      else if kind = "polecats".toList then .ok ⟨.polecat, rig, name, pfx⟩
      else .error (.invalidAddress address)
    else .error (.invalidAddress address)

/-- `ParseAddress`: parse a mail-style address into an `AgentIdentity`. -/
def ParseAddress (reg : Registry) (address0 : Str) : Except ParseErr AgentIdentity :=
  let address := trimSpace address0
  if address = [] then .error .emptyAddress
  else if address = "mayor".toList ∨ address = "mayor/".toList then
    .ok ⟨.mayor, [], [], []⟩
  else if address = "deacon".toList ∨ address = "deacon/".toList then
    .ok ⟨.deacon, [], [], []⟩
  else if address = "overseer".toList then .error .overseerNoSession
  else parseRigAddress reg address

/-- Modelled from the spec: the reserved town prefix `"hq-"` of the session
grammar (`townform := "hq-" ...`); the constant itself is declared outside
the provided sources. -/
def HQPrefix : Str := "hq-".toList

/-- The rig-level tail of `ParseSessionName` (everything after the prefix
separator has been found). -/
def parseRigSession (reg : Registry) (session pfx rest : Str) :
    Except ParseErr AgentIdentity :=
  let rigName := RigForPrefix reg pfx
  if rest = "witness".toList then .ok ⟨.witness, rigName, [], pfx⟩
  else if rest = "refinery".toList then .ok ⟨.refinery, rigName, [], pfx⟩
  else if rest = "boot".toList then .ok ⟨.deacon, [], "boot".toList, pfx⟩
  else if "crew-".toList.isPrefixOf rest then
    let name := rest.drop 5
    if name = [] then .error (.emptyCrewName session)
    else .ok ⟨.crew, rigName, name, pfx⟩
  else if rest = [] then .error (.emptyName session)
  else .ok ⟨.polecat, rigName, rest, pfx⟩

/-- `ParseSessionName`: parse a tmux session name into an `AgentIdentity`.
Go's `idx <= 0 || idx == len(session)-1` check is the `none` case plus the
empty-prefix / empty-rest test below. -/
def ParseSessionName (reg : Registry) (session : Str) :
    Except ParseErr AgentIdentity :=
  if HQPrefix.isPrefixOf session then
    let suffix := session.drop HQPrefix.length
    if suffix = "mayor".toList then .ok ⟨.mayor, [], [], []⟩
    else if suffix = "deacon".toList then .ok ⟨.deacon, [], [], []⟩
    else if suffix = "boot".toList then .ok ⟨.deacon, [], "boot".toList, []⟩
    else if suffix = "overseer".toList then .ok ⟨.mayor, [], "overseer".toList, []⟩
    else .error (.unknownHQRole session)
  else
    match splitFirst '-' session with
    | none => .error (.noSeparator session)
    | some (pfx, rest) =>
      if pfx = [] ∨ rest = [] then .error (.noSeparator session)
      else parseRigSession reg session pfx rest

/-- Modelled from the spec: town roles produce fixed strings (`hq-mayor`). -/
def MayorSessionName : Str := "hq-mayor".toList

/-- Modelled from the spec: town roles produce fixed strings (`hq-deacon`). -/
def DeaconSessionName : Str := "hq-deacon".toList

/-- Modelled from the spec: the boot watchdog session is `hq-boot`. -/
def BootSessionName : Str := "hq-boot".toList

/-- Modelled from the spec: singleton roles produce `prefix-witness`. -/
def WitnessSessionName (pfx : Str) : Str := pfx ++ "-witness".toList

/-- Modelled from the spec: singleton roles produce `prefix-refinery`. -/
def RefinerySessionName (pfx : Str) : Str := pfx ++ "-refinery".toList

/-- Modelled from the spec: crew produces `prefix-crew-name`. -/
def CrewSessionName (pfx name : Str) : Str := pfx ++ "-crew-".toList ++ name

/-- Modelled from the spec: a worker (polecat) produces `prefix-name`. -/
def PolecatSessionName (pfx name : Str) : Str := pfx ++ "-".toList ++ name

/-- `rigPrefix`: the identity's own prefix if set, otherwise a registry
lookup from the rig name (the Go inner `if p != ""` fallthrough returns `""`
exactly when the lookup does, so the collapse below is behaviour-identical). -/
def rigPrefix (reg : Registry) (a : AgentIdentity) : Str :=
  if a.pfx ≠ [] then a.pfx
  else if a.rig ≠ [] then PrefixForRig reg a.rig
  else []

/-- `AgentIdentity.SessionName`: the tmux session name for an identity. -/
def SessionName (reg : Registry) (a : AgentIdentity) : Str :=
  match a.role with
  | .mayor => MayorSessionName
  | .deacon => if a.name = "boot".toList then BootSessionName else DeaconSessionName
  | .witness => WitnessSessionName (rigPrefix reg a)
  | .refinery => RefinerySessionName (rigPrefix reg a)
  | .crew => CrewSessionName (rigPrefix reg a) a.name
  | .polecat => PolecatSessionName (rigPrefix reg a) a.name

/-- `AgentIdentity.Address`: the mail-style address for an identity. -/
def Address (a : AgentIdentity) : Str :=
  match a.role with
  | .mayor => "mayor".toList
  | .deacon => "deacon".toList
  | .witness => a.rig ++ "/witness".toList
  | .refinery => a.rig ++ "/refinery".toList
  | .crew => a.rig ++ "/crew/".toList ++ a.name
  | .polecat => a.rig ++ "/polecats/".toList ++ a.name

/-- A merge-slot status record (`beads.MergeSlotStatus`). -/
structure MergeSlotStatus where
  id : Str
  available : Bool
  holder : Str
deriving DecidableEq, Repr

/-- Outcome of a release: success, or the explicitly named holder-mismatch
failure carrying the current and the presented holder (the two strings the
Go error message embeds). -/
inductive ReleaseOutcome where
  | ok
  | holderMismatch (current presented : Str)
deriving DecidableEq, Repr

/-- The merge-slot state is the current holder token; `[]` means `Free`.
`mergeSlotAcquire` is the reference implementation guarded by the mutex in
`TestAcquireMainPushSlot_ConcurrentSingleWriter`: grant the slot when free,
otherwise report the current holder without mutating state.  The `addWaiter`
flag is accepted and ignored, as in the source. -/
def mergeSlotAcquire (currentHolder holder : Str) (addWaiter : Bool) :
    Str × MergeSlotStatus :=
  if currentHolder = [] then (holder, ⟨"merge-slot".toList, true, holder⟩)
  else (currentHolder, ⟨"merge-slot".toList, false, currentHolder⟩)

/-- `mergeSlotRelease`: fail with holder-mismatch (state untouched) unless
the presented token matches the current holder; on match, free the slot. -/
def mergeSlotRelease (currentHolder holder : Str) : Str × ReleaseOutcome :=
  if currentHolder = holder then ([], .ok)
  else (currentHolder, .holderMismatch currentHolder holder)

/-- Operations a client can perform on a merge slot. -/
inductive SlotOp where
  | acquire (holder : Str) (addWaiter : Bool)
  | release (holder : Str)

/-- Run a sequence of slot operations, threading the slot state. -/
def runOps : List SlotOp → Str → Str
  | [], s => s
  | .acquire h w :: rest, s => runOps rest (mergeSlotAcquire s h w).1
  | .release h :: rest, s => runOps rest (mergeSlotRelease s h).1

/-- Whether the first character (if any) is not whitespace. -/
def headNotWs (s : Str) : Bool :=
  match s.head? with
  | none => true
  | some c => !c.isWhitespace

/-- Whether the last character (if any) is not whitespace. -/
def lastNotWs (s : Str) : Bool :=
  match s.getLast? with
  | none => true
  | some c => !c.isWhitespace

/-- Hygiene conditions under which an identity's `Address` encoding parses
back to the identity: town-level identities must not carry an alias name
(the encoders drop it), and rig-level identities need a non-empty,
slash-free rig whose registry reverse lookup matches the cached prefix,
plus a slash-free non-empty name for the named roles; edge whitespace is
excluded because `ParseAddress` trims it. -/
def AddressOK (reg : Registry) (a : AgentIdentity) : Prop :=
  match a.role with
  | .mayor => a.name = []
  | .deacon => a.name = []
  | .witness =>
      a.rig ≠ [] ∧ '/' ∉ a.rig ∧ headNotWs a.rig = true ∧
        PrefixForRig reg a.rig = a.pfx
  | .refinery =>
      a.rig ≠ [] ∧ '/' ∉ a.rig ∧ headNotWs a.rig = true ∧
        PrefixForRig reg a.rig = a.pfx
  | .crew =>
      a.rig ≠ [] ∧ '/' ∉ a.rig ∧ headNotWs a.rig = true ∧
        PrefixForRig reg a.rig = a.pfx ∧
        a.name ≠ [] ∧ '/' ∉ a.name ∧ lastNotWs a.name = true
  | .polecat =>
      a.rig ≠ [] ∧ '/' ∉ a.rig ∧ headNotWs a.rig = true ∧
        PrefixForRig reg a.rig = a.pfx ∧
        a.name ≠ [] ∧ '/' ∉ a.name ∧ lastNotWs a.name = true

/-- Forget the registry-derived project field of an identity. -/
def eraseRig (a : AgentIdentity) : AgentIdentity :=
  ⟨a.role, [], a.name, a.pfx⟩

/-- The registry of the repository's own tests: prefix `gt` for rig
`gastown`. -/
def gtReg : Registry := RegisterPrefix emptyRegistry "gt".toList "gastown".toList

deriving instance DecidableEq for Except


/-! ### String-level helper lemmas -/

theorem splitFirst_eq_some {c : Char} :
    ∀ {s a b : Str}, splitFirst c s = some (a, b) → s = a ++ c :: b ∧ c ∉ a := by
  intro s
  induction s with
  | nil => intro a b h; simp [splitFirst] at h
  | cons x xs ih =>
    intro a b h
    by_cases hx : x = c
    · rw [splitFirst, if_pos hx] at h
      simp only [Option.some.injEq, Prod.mk.injEq] at h
      obtain ⟨ha, hb⟩ := h
      subst ha; subst hb; subst hx
      simp
    · rw [splitFirst, if_neg hx] at h
      cases hs : splitFirst c xs with
      | none => rw [hs] at h; simp at h
      | some ab =>
        obtain ⟨a', b'⟩ := ab
        rw [hs] at h
        simp only [Option.some.injEq, Prod.mk.injEq] at h
        obtain ⟨ha, hb⟩ := h
        obtain ⟨h1, h2⟩ := ih hs
        subst hb
        rw [← ha]
        refine ⟨by rw [h1]; simp, ?_⟩
        intro hmem
        rcases List.mem_cons.mp hmem with he | hm
        · exact hx he.symm
        · exact h2 hm

theorem splitFirst_append {c : Char} :
    ∀ {p : Str} (q : Str), c ∉ p → splitFirst c (p ++ c :: q) = some (p, q) := by
  intro p
  induction p with
  | nil => intro q _; simp [splitFirst]
  | cons x xs ih =>
    intro q h
    have hx : x ≠ c := by rintro rfl; exact h (List.mem_cons_self _ _)
    have hxs : c ∉ xs := fun hc => h (List.mem_cons_of_mem _ hc)
    rw [List.cons_append, splitFirst, if_neg hx, ih q hxs]

theorem splitOnChar_of_not_mem {c : Char} :
    ∀ {s : Str}, c ∉ s → splitOnChar c s = [s] := by
  intro s
  induction s with
  | nil => intro _; rfl
  | cons x xs ih =>
    intro h
    have hx : x ≠ c := by rintro rfl; exact h (List.mem_cons_self _ _)
    have hxs : c ∉ xs := fun hc => h (List.mem_cons_of_mem _ hc)
    rw [splitOnChar]
    rw [ih hxs]
    simp [hx]

theorem splitOnChar_append {c : Char} :
    ∀ {p : Str} (q : Str), c ∉ p →
      splitOnChar c (p ++ c :: q) = p :: splitOnChar c q := by
  intro p
  induction p with
  | nil => intro q _; simp [splitOnChar]
  | cons x xs ih =>
    intro q h
    have hx : x ≠ c := by rintro rfl; exact h (List.mem_cons_self _ _)
    have hxs : c ∉ xs := fun hc => h (List.mem_cons_of_mem _ hc)
    rw [List.cons_append, splitOnChar]
    rw [ih q hxs]
    simp [hx]

theorem getLast?_mem_of_eq_some {c : Char} :
    ∀ {l : Str}, l.getLast? = some c → c ∈ l := by
  intro l
  induction l with
  | nil => intro h; simp at h
  | cons x xs ih =>
    intro h
    cases xs with
    | nil => simp at h; simp [h]
    | cons y ys =>
      rw [List.getLast?_cons_cons] at h
      exact List.mem_cons_of_mem _ (ih h)

theorem getLast?_ne_of_not_mem {c : Char} {l : Str} (h : c ∉ l) :
    l.getLast? ≠ some c :=
  fun he => h (getLast?_mem_of_eq_some he)

theorem getLast?_append_cons (l : Str) (c : Char) (t : Str) :
    (l ++ c :: t).getLast? = (c :: t).getLast? := by
  rw [List.getLast?_append]
  cases hv : (c :: t).getLast? with
  | none => exact absurd (List.getLast?_eq_none_iff.mp hv) (by simp)
  | some d => simp

theorem dropWhile_head?_not {p : Char → Bool} :
    ∀ {l : Str} {c : Char}, (l.dropWhile p).head? = some c → p c = false := by
  intro l
  induction l with
  | nil => intro c h; simp [List.dropWhile] at h
  | cons x xs ih =>
    intro c h
    by_cases hx : p x
    · rw [List.dropWhile_cons, if_pos hx] at h; exact ih h
    · rw [List.dropWhile_cons, if_neg hx] at h
      simp at h
      rw [← h]
      simpa using hx

theorem dropWhile_eq_self_of_head {p : Char → Bool} {l : Str}
    (h : ∀ c, l.head? = some c → p c = false) : l.dropWhile p = l := by
  cases l with
  | nil => rfl
  | cons x xs =>
    rw [List.dropWhile_cons, if_neg]
    rw [h x (by simp)]
    simp

theorem trimSpace_eq_self {s : Str} (h1 : headNotWs s = true)
    (h2 : lastNotWs s = true) : trimSpace s = s := by
  unfold trimSpace
  have e1 : s.dropWhile Char.isWhitespace = s := by
    apply dropWhile_eq_self_of_head
    intro c hc
    unfold headNotWs at h1
    rw [hc] at h1
    simpa using h1
  rw [e1]
  have e2 : s.reverse.dropWhile Char.isWhitespace = s.reverse := by
    apply dropWhile_eq_self_of_head
    intro c hc
    rw [List.head?_reverse] at hc
    unfold lastNotWs at h2
    rw [hc] at h2
    simpa using h2
  rw [e2, List.reverse_reverse]

theorem lastNotWs_trimSpace (s : Str) : lastNotWs (trimSpace s) = true := by
  unfold lastNotWs trimSpace
  rw [List.getLast?_reverse]
  cases hc : ((s.dropWhile Char.isWhitespace).reverse.dropWhile Char.isWhitespace).head? with
  | none => rfl
  | some c =>
    have := dropWhile_head?_not hc
    simp [this]

theorem headNotWs_trimSpace (s : Str) : headNotWs (trimSpace s) = true := by
  unfold headNotWs trimSpace
  rw [List.head?_reverse]
  cases hv :
      ((s.dropWhile Char.isWhitespace).reverse.dropWhile Char.isWhitespace).getLast? with
  | none => rfl
  | some c =>
    obtain ⟨pre, hpre⟩ :=
      List.dropWhile_suffix (l := (s.dropWhile Char.isWhitespace).reverse)
        Char.isWhitespace
    have hlast : (s.dropWhile Char.isWhitespace).reverse.getLast? = some c := by
      rw [← hpre, List.getLast?_append, hv, Option.or_some]
    rw [List.getLast?_reverse] at hlast
    have := dropWhile_head?_not hlast
    simp [this]

theorem trimSpace_idem (s : Str) : trimSpace (trimSpace s) = trimSpace s :=
  trimSpace_eq_self (headNotWs_trimSpace s) (lastNotWs_trimSpace s)

theorem hq_isPrefixOf_append {p : Str} (rest : Str) (hd : '-' ∉ p) :
    HQPrefix.isPrefixOf (p ++ '-' :: rest) = true ↔ p = "hq".toList := by
  constructor
  · intro h
    rw [List.isPrefixOf_iff_prefix] at h
    obtain ⟨t, ht⟩ := h
    have he : HQPrefix = 'h' :: 'q' :: '-' :: [] := by decide
    rw [he] at ht
    simp only [List.cons_append, List.nil_append] at ht
    cases p with
    | nil =>
      simp only [List.nil_append] at ht
      injection ht with h1 _
      exact absurd h1 (by decide)
    | cons a p' =>
      cases p' with
      | nil =>
        simp only [List.cons_append, List.nil_append] at ht
        injection ht with h1 ht2
        injection ht2 with h2 _
        exact absurd h2 (by decide)
      | cons b p'' =>
        simp only [List.cons_append] at ht
        injection ht with h1 ht2
        injection ht2 with h2 ht3
        cases p'' with
        | nil =>
          rw [← h1, ← h2]
          decide
        | cons d p''' =>
          simp only [List.cons_append] at ht3
          injection ht3 with h3 _
          refine absurd ?_ hd
          rw [h3]
          simp
  · rintro rfl
    rw [List.isPrefixOf_iff_prefix]
    have e2 : HQPrefix = "hq".toList ++ ['-'] := by decide
    exact ⟨rest, by rw [e2, List.append_assoc, List.singleton_append]⟩

theorem ParseSessionName_rig (reg : Registry) {p rest : Str} (hd : '-' ∉ p)
    (hp : p ≠ []) (hr : rest ≠ []) (hhq : p ≠ "hq".toList) :
    ParseSessionName reg (p ++ '-' :: rest) =
      parseRigSession reg (p ++ '-' :: rest) p rest := by
  have hnp : HQPrefix.isPrefixOf (p ++ '-' :: rest) = false := by
    cases hb : HQPrefix.isPrefixOf (p ++ '-' :: rest) with
    | false => rfl
    | true => exact absurd ((hq_isPrefixOf_append rest hd).mp hb) hhq
  rw [ParseSessionName, hnp]
  simp only [Bool.false_eq_true, if_false]
  rw [splitFirst_append rest hd]
  simp [hp, hr]

theorem ParseAddress_rig (reg : Registry) {s : Str} (hts : trimSpace s = s)
    (hmem : '/' ∈ s) (hlast : s.getLast? ≠ some '/') :
    ParseAddress reg s = parseRigAddress reg s := by
  have hne : s ≠ [] := by rintro rfl; simp at hmem
  have hm1 : s ≠ "mayor".toList := by rintro rfl; revert hmem; decide
  have hm2 : s ≠ "mayor/".toList := by rintro rfl; exact hlast (by decide)
  have hd1 : s ≠ "deacon".toList := by rintro rfl; revert hmem; decide
  have hd2 : s ≠ "deacon/".toList := by rintro rfl; exact hlast (by decide)
  have ho : s ≠ "overseer".toList := by rintro rfl; revert hmem; decide
  rw [ParseAddress, hts, if_neg hne, if_neg (not_or.mpr ⟨hm1, hm2⟩),
    if_neg (not_or.mpr ⟨hd1, hd2⟩), if_neg ho]

theorem parseRigAddress_two (reg : Registry) {rig seg : Str} (hr : '/' ∉ rig)
    (hs : '/' ∉ seg) (hne : seg ≠ []) :
    parseRigAddress reg (rig ++ '/' :: seg) =
      (if seg = "witness".toList then .ok ⟨.witness, rig, [], PrefixForRig reg rig⟩
       else if seg = "refinery".toList then
         .ok ⟨.refinery, rig, [], PrefixForRig reg rig⟩
       else if seg = "crew".toList ∨ seg = "polecats".toList then
         .error (.invalidAddress (rig ++ '/' :: seg))
       else .ok ⟨.polecat, rig, seg, PrefixForRig reg rig⟩) := by
  have hcond : ('/' :: seg).getLast? ≠ some '/' := by
    cases seg with
    | nil => exact absurd rfl hne
    | cons y ys =>
      rw [List.getLast?_cons_cons]
      exact getLast?_ne_of_not_mem hs
  have htr : trimSlashSuffix (rig ++ '/' :: seg) = rig ++ '/' :: seg := by
    unfold trimSlashSuffix
    rw [getLast?_append_cons, if_neg hcond]
  rw [parseRigAddress, htr, splitOnChar_append seg hr, splitOnChar_of_not_mem hs]
  simp [List.getD]

theorem parseRigAddress_three (reg : Registry) {rig kind name : Str}
    (hr : '/' ∉ rig) (hk : '/' ∉ kind) (hn : '/' ∉ name) (hnne : name ≠ []) :
    parseRigAddress reg (rig ++ '/' :: (kind ++ '/' :: name)) =
      (if kind = "crew".toList then .ok ⟨.crew, rig, name, PrefixForRig reg rig⟩
       else if kind = "polecats".toList then
         .ok ⟨.polecat, rig, name, PrefixForRig reg rig⟩
       else .error (.invalidAddress (rig ++ '/' :: (kind ++ '/' :: name)))) := by
  have hcondn : ('/' :: name).getLast? ≠ some '/' := by
    cases name with
    | nil => exact absurd rfl hnne
    | cons y ys =>
      rw [List.getLast?_cons_cons]
      exact getLast?_ne_of_not_mem hn
  have hcond : ('/' :: (kind ++ '/' :: name)).getLast? ≠ some '/' := by
    rw [show ('/' :: (kind ++ '/' :: name)) = ('/' :: kind) ++ '/' :: name by simp,
      getLast?_append_cons]
    exact hcondn
  have htr : trimSlashSuffix (rig ++ '/' :: (kind ++ '/' :: name)) =
      rig ++ '/' :: (kind ++ '/' :: name) := by
    unfold trimSlashSuffix
    rw [getLast?_append_cons, if_neg hcond]
  rw [parseRigAddress, htr, splitOnChar_append _ hr, splitOnChar_append _ hk,
    splitOnChar_of_not_mem hn]
  simp [List.getD]

/-! ### Merge-slot lemmas -/

theorem runOps_holder_from_acquire : ∀ (ops : List SlotOp) (s0 : Str),
    runOps ops s0 = [] ∨ runOps ops s0 = s0 ∨
      ∃ h w, SlotOp.acquire h w ∈ ops ∧ runOps ops s0 = h := by
  intro ops
  induction ops with
  | nil => intro s0; right; left; rfl
  | cons op rest ih =>
    intro s0
    cases op with
    | acquire h w =>
      by_cases hs : s0 = []
      · have he : (mergeSlotAcquire s0 h w).1 = h := by simp [mergeSlotAcquire, hs]
        rw [runOps, he]
        rcases ih h with h1 | h1 | ⟨h', w', hm, hrun⟩
        · exact Or.inl h1
        · exact Or.inr (Or.inr ⟨h, w, List.mem_cons_self _ _, h1⟩)
        · exact Or.inr (Or.inr ⟨h', w', List.mem_cons_of_mem _ hm, hrun⟩)
      · have he : (mergeSlotAcquire s0 h w).1 = s0 := by simp [mergeSlotAcquire, hs]
        rw [runOps, he]
        rcases ih s0 with h1 | h1 | ⟨h', w', hm, hrun⟩
        · exact Or.inl h1
        · exact Or.inr (Or.inl h1)
        · exact Or.inr (Or.inr ⟨h', w', List.mem_cons_of_mem _ hm, hrun⟩)
    | release h =>
      by_cases hs : s0 = h
      · have he : (mergeSlotRelease s0 h).1 = [] := by simp [mergeSlotRelease, hs]
        rw [runOps, he]
        rcases ih [] with h1 | h1 | ⟨h', w', hm, hrun⟩
        · exact Or.inl h1
        · exact Or.inl h1
        · exact Or.inr (Or.inr ⟨h', w', List.mem_cons_of_mem _ hm, hrun⟩)
      · have he : (mergeSlotRelease s0 h).1 = s0 := by simp [mergeSlotRelease, hs]
        rw [runOps, he]
        rcases ih s0 with h1 | h1 | ⟨h', w', hm, hrun⟩
        · exact Or.inl h1
        · exact Or.inr (Or.inl h1)
        · exact Or.inr (Or.inr ⟨h', w', List.mem_cons_of_mem _ hm, hrun⟩)

/-- C2: `Acquire` on a free slot transitions it to held-by-`h` and reports
`available = true` with that holder; `Acquire` on a slot held by a different
holder reports `available = false` with the current holder and leaves the
state unchanged; and every state reachable from the free slot by any
operation sequence is either free or holds exactly the single token some
acquirer presented. -/
theorem mergeSlotAcquire_transitions (s h : Str) (w : Bool) :
    (s = [] → mergeSlotAcquire s h w = (h, ⟨"merge-slot".toList, true, h⟩)) ∧
    (s ≠ [] → h ≠ s → mergeSlotAcquire s h w = (s, ⟨"merge-slot".toList, false, s⟩)) ∧
    (∀ ops : List SlotOp, runOps ops [] = [] ∨
      ∃ h0 w0, SlotOp.acquire h0 w0 ∈ ops ∧ runOps ops [] = h0) := by
  refine ⟨fun hs => by simp [mergeSlotAcquire, hs], fun hs _ => by
    simp [mergeSlotAcquire, hs], fun ops => ?_⟩
  rcases runOps_holder_from_acquire ops [] with h1 | h1 | h1
  · exact Or.inl h1
  · exact Or.inl h1
  · exact Or.inr h1

/-- Witness for C2 at concrete inputs. -/
theorem mergeSlotAcquire_transitions_witness :
    mergeSlotAcquire [] "alice".toList true =
      ("alice".toList, ⟨"merge-slot".toList, true, "alice".toList⟩) ∧
    mergeSlotAcquire "alice".toList "bob".toList true =
      ("alice".toList, ⟨"merge-slot".toList, false, "alice".toList⟩) := by
  have h := mergeSlotAcquire_transitions [] "alice".toList true
  have h2 := mergeSlotAcquire_transitions "alice".toList "bob".toList true
  exact ⟨h.1 rfl, h2.2.1 (by decide) (by decide)⟩

/-- C3: `Release` presented with a non-matching holder token fails with the
holder-mismatch error and leaves the slot state untouched; `Release` by the
current holder succeeds and frees the slot. -/
theorem mergeSlotRelease_spec (s h : Str) (hheld : s ≠ []) :
    (h ≠ s → mergeSlotRelease s h = (s, .holderMismatch s h)) ∧
    mergeSlotRelease s s = ([], .ok) := by
  refine ⟨fun hne => ?_, by simp [mergeSlotRelease]⟩
  rw [mergeSlotRelease, if_neg (fun he => hne he.symm)]

/-- Witness for C3 at concrete inputs. -/
theorem mergeSlotRelease_spec_witness :
    mergeSlotRelease "alice".toList "bob".toList =
      ("alice".toList, .holderMismatch "alice".toList "bob".toList) ∧
    mergeSlotRelease "alice".toList "alice".toList = ([], .ok) := by
  have h := mergeSlotRelease_spec "alice".toList "bob".toList (by decide)
  have h2 := mergeSlotRelease_spec "alice".toList "alice".toList (by decide)
  exact ⟨h.1 (by decide), h2.2⟩

/-- C6: of two interleaved `Acquire` attempts on a free slot by distinct
holders, the first to run wins and the second is told the winner holds the
slot; the winner's `Release` succeeds, while a third party's `Release` with
a non-matching token fails with holder-mismatch and leaves the slot held
(the mutex in the source serializes the two attempts, so any interleaving
is one of the two orders, covered here by the symmetry in `h1`/`h2`). -/
theorem mergeSlot_concurrent_single_writer (h1 h2 h3 : Str)
    (hne : h2 ≠ h1) (h1ne : h1 ≠ []) (h3ne : h3 ≠ h1) :
    mergeSlotAcquire [] h1 false = (h1, ⟨"merge-slot".toList, true, h1⟩) ∧
    mergeSlotAcquire h1 h2 false = (h1, ⟨"merge-slot".toList, false, h1⟩) ∧
    mergeSlotRelease h1 h3 = (h1, .holderMismatch h1 h3) ∧
    mergeSlotRelease h1 h1 = ([], .ok) := by
  refine ⟨by simp [mergeSlotAcquire], ?_, ?_, by simp [mergeSlotRelease]⟩
  · rw [mergeSlotAcquire, if_neg h1ne]
  · rw [mergeSlotRelease, if_neg (fun he => h3ne he.symm)]

/-- Witness for C6 at concrete inputs. -/
theorem mergeSlot_concurrent_single_writer_witness :
    mergeSlotAcquire [] "w1".toList false =
      ("w1".toList, ⟨"merge-slot".toList, true, "w1".toList⟩) ∧
    mergeSlotAcquire "w1".toList "w2".toList false =
      ("w1".toList, ⟨"merge-slot".toList, false, "w1".toList⟩) ∧
    mergeSlotRelease "w1".toList "w3".toList =
      ("w1".toList, .holderMismatch "w1".toList "w3".toList) ∧
    mergeSlotRelease "w1".toList "w1".toList = ([], .ok) :=
  mergeSlot_concurrent_single_writer "w1".toList "w2".toList "w3".toList
    (by decide) (by decide) (by decide)

/-! ### Registry lemmas -/

theorem lookupStr_eq_some_mem :
    ∀ {m : List (Str × Str)} {k v : Str}, lookupStr m k = some v → (k, v) ∈ m := by
  intro m
  induction m with
  | nil => intro k v h; simp [lookupStr] at h
  | cons kv rest ih =>
    intro k v h
    obtain ⟨k', v'⟩ := kv
    by_cases hk : k' = k
    · rw [lookupStr, if_pos hk] at h
      simp at h
      subst hk; subst h
      exact List.mem_cons_self _ _
    · rw [lookupStr, if_neg hk] at h
      exact List.mem_cons_of_mem _ (ih h)

theorem lookupStr_of_mem_nodup :
    ∀ {m : List (Str × Str)} {k v : Str}, (k, v) ∈ m →
      (m.map Prod.fst).Nodup → lookupStr m k = some v := by
  intro m
  induction m with
  | nil => intro k v h _; simp at h
  | cons kv rest ih =>
    intro k v h hnd
    obtain ⟨k', v'⟩ := kv
    rcases List.mem_cons.mp h with he | hm
    · obtain ⟨h1, h2⟩ := Prod.mk.injEq .. ▸ he
      subst h1; subst h2
      rw [lookupStr, if_pos rfl]
    · rw [List.map_cons] at hnd
      have hnd' := List.nodup_cons.mp hnd
      have hk : k' ≠ k := by
        rintro rfl
        exact hnd'.1 (List.mem_map.mpr ⟨(k', v), hm, rfl⟩)
      rw [lookupStr, if_neg hk]
      exact ih hm hnd'.2

theorem applyRegs_prefixToRig : ∀ regs, (applyRegs regs).prefixToRig = regs := by
  intro regs
  induction regs with
  | nil => rfl
  | cons pr rest ih =>
    obtain ⟨p, r⟩ := pr
    rw [applyRegs, RegisterPrefix]
    simp [ih]

theorem applyRegs_rigToPrefix :
    ∀ regs, (applyRegs regs).rigToPrefix = regs.map (fun pr => (pr.2, pr.1)) := by
  intro regs
  induction regs with
  | nil => rfl
  | cons pr rest ih =>
    obtain ⟨p, r⟩ := pr
    rw [applyRegs, RegisterPrefix]
    simp [ih]

/-- C4 counterexample: registering the same prefix twice keeps the stale
reverse entry, so the two directions of the registry disagree — for the
registered pair `(gt, gastown)`, `PrefixForRig gastown` still answers `gt`
while `RigForPrefix gt` now answers `beads`, refuting the claimed bijection
after arbitrary `RegisterPrefix` sequences. -/
theorem RegisterPrefix_overwrite_breaks_bijection :
    PrefixForRig
        (RegisterPrefix (RegisterPrefix emptyRegistry "gt".toList "gastown".toList)
          "gt".toList "beads".toList) "gastown".toList = "gt".toList ∧
    RigForPrefix
        (RegisterPrefix (RegisterPrefix emptyRegistry "gt".toList "gastown".toList)
          "gt".toList "beads".toList) "gt".toList ≠ "gastown".toList := by
  decide

/-- C4 amended: when the registered prefixes are pairwise distinct and the
registered rig names are pairwise distinct (no overwrites), the registry is
a bijection — the two lookup directions agree on every non-empty pair. -/
theorem registry_bijection_of_distinct (regs : List (Str × Str))
    (hp : (regs.map Prod.fst).Nodup) (hr : (regs.map Prod.snd).Nodup)
    (p r : Str) (hpne : p ≠ []) (hrne : r ≠ []) :
    RigForPrefix (applyRegs regs) p = r ↔ PrefixForRig (applyRegs regs) r = p := by
  rw [RigForPrefix, applyRegs_prefixToRig, PrefixForRig, applyRegs_rigToPrefix]
  have hnd2 : ((regs.map (fun pr => (pr.2, pr.1))).map Prod.fst).Nodup := by
    have he : (regs.map (fun pr : Str × Str => (pr.2, pr.1))).map Prod.fst =
        regs.map Prod.snd := by
      simp [List.map_map]
    rw [he]
    exact hr
  constructor
  · intro h
    cases hl : lookupStr regs p with
    | none => rw [hl] at h; exact absurd h.symm hrne
    | some v =>
      rw [hl] at h
      simp only [Option.getD_some] at h
      rw [h] at hl
      have hm : (r, p) ∈ regs.map (fun pr => (pr.2, pr.1)) :=
        List.mem_map.mpr ⟨(p, r), lookupStr_eq_some_mem hl, rfl⟩
      rw [lookupStr_of_mem_nodup hm hnd2]
      rfl
  · intro h
    cases hl : lookupStr (regs.map (fun pr => (pr.2, pr.1))) r with
    | none => rw [hl] at h; exact absurd h.symm hpne
    | some v =>
      rw [hl] at h
      simp only [Option.getD_some] at h
      rw [h] at hl
      have hm0 := lookupStr_eq_some_mem hl
      obtain ⟨⟨p', r'⟩, hmem, hpr⟩ := List.mem_map.mp hm0
      simp only [Prod.mk.injEq] at hpr
      rw [hpr.1, hpr.2] at hmem
      rw [lookupStr_of_mem_nodup hmem hp]
      rfl

/-- Witness for C4's amended theorem at a concrete distinct registry. -/
theorem registry_bijection_of_distinct_witness :
    RigForPrefix (applyRegs [("gt".toList, "gastown".toList),
        ("bd".toList, "beads".toList)]) "gt".toList = "gastown".toList ↔
      PrefixForRig (applyRegs [("gt".toList, "gastown".toList),
        ("bd".toList, "beads".toList)]) "gastown".toList = "gt".toList :=
  registry_bijection_of_distinct
    [("gt".toList, "gastown".toList), ("bd".toList, "beads".toList)]
    (by decide) (by decide) "gt".toList "gastown".toList (by decide) (by decide)

/-! ### Session-name parser case equations and the encode/decode lemmas -/

theorem ParseSessionName_hq (reg : Registry) (t : Str) :
    ParseSessionName reg (HQPrefix ++ t) =
      (if t = "mayor".toList then .ok ⟨.mayor, [], [], []⟩
       else if t = "deacon".toList then .ok ⟨.deacon, [], [], []⟩
       else if t = "boot".toList then .ok ⟨.deacon, [], "boot".toList, []⟩
       else if t = "overseer".toList then .ok ⟨.mayor, [], "overseer".toList, []⟩
       else .error (.unknownHQRole (HQPrefix ++ t))) := by
  have hhq : HQPrefix.isPrefixOf (HQPrefix ++ t) = true :=
    List.isPrefixOf_iff_prefix.mpr (List.prefix_append _ _)
  rw [ParseSessionName, if_pos hhq]
  simp only [List.drop_left]

theorem ParseSessionName_noSplit (reg : Registry) {s : Str}
    (hhq : HQPrefix.isPrefixOf s = false) (hsp : splitFirst '-' s = none) :
    ParseSessionName reg s = .error (.noSeparator s) := by
  rw [ParseSessionName, hsp]
  simp [hhq]

theorem ParseSessionName_split (reg : Registry) {s p rest : Str}
    (hhq : HQPrefix.isPrefixOf s = false)
    (hsp : splitFirst '-' s = some (p, rest)) :
    ParseSessionName reg s =
      (if p = [] ∨ rest = [] then .error (.noSeparator s)
       else parseRigSession reg s p rest) := by
  rw [ParseSessionName, hsp]
  simp [hhq]

theorem rigPrefix_mk (reg : Registry) (ro : Role) (ri n p : Str) (hp : p ≠ []) :
    rigPrefix reg ⟨ro, ri, n, p⟩ = p := by
  rw [rigPrefix]
  simp [hp]

theorem SessionName_of_parse {reg : Registry} {s : Str} {a : AgentIdentity}
    (hp : ParseSessionName reg s = .ok a)
    (hboot : ¬(a.role = .deacon ∧ a.name = "boot".toList ∧ a.pfx ≠ []))
    (hov : ¬(a.role = .mayor ∧ a.name = "overseer".toList)) :
    SessionName reg a = s := by
  by_cases hhq : HQPrefix.isPrefixOf s = true
  · obtain ⟨t, ht⟩ := List.isPrefixOf_iff_prefix.mp hhq
    subst ht
    rw [ParseSessionName_hq] at hp
    by_cases h1 : t = "mayor".toList
    · rw [if_pos h1] at hp
      injection hp with ha
      subst ha; subst h1
      exact (by decide : MayorSessionName = HQPrefix ++ "mayor".toList)
    · rw [if_neg h1] at hp
      by_cases h2 : t = "deacon".toList
      · rw [if_pos h2] at hp
        injection hp with ha
        subst ha; subst h2
        exact (by decide :
          (if ([] : Str) = "boot".toList then BootSessionName else DeaconSessionName) =
            HQPrefix ++ "deacon".toList)
      · rw [if_neg h2] at hp
        by_cases h3 : t = "boot".toList
        · rw [if_pos h3] at hp
          injection hp with ha
          subst ha; subst h3
          exact (by decide :
            (if ("boot".toList : Str) = "boot".toList then BootSessionName
             else DeaconSessionName) = HQPrefix ++ "boot".toList)
        · rw [if_neg h3] at hp
          by_cases h4 : t = "overseer".toList
          · rw [if_pos h4] at hp
            injection hp with ha
            exact absurd ⟨by rw [← ha], by rw [← ha]⟩ hov
          · rw [if_neg h4] at hp
            exact Except.noConfusion hp
  · have hhq' : HQPrefix.isPrefixOf s = false := by
      cases hb : HQPrefix.isPrefixOf s
      · rfl
      · exact absurd hb hhq
    cases hsp : splitFirst '-' s with
    | none =>
      rw [ParseSessionName_noSplit reg hhq' hsp] at hp
      exact Except.noConfusion hp
    | some pr =>
      obtain ⟨p, rest⟩ := pr
      obtain ⟨hseq, hnd⟩ := splitFirst_eq_some hsp
      rw [ParseSessionName_split reg hhq' hsp] at hp
      by_cases hpe : p = [] ∨ rest = []
      · rw [if_pos hpe] at hp
        exact Except.noConfusion hp
      · rw [if_neg hpe] at hp
        push_neg at hpe
        obtain ⟨hpne, hrne⟩ := hpe
        simp only [parseRigSession] at hp
        by_cases h1 : rest = "witness".toList
        · rw [if_pos h1] at hp
          injection hp with ha
          subst ha; subst h1
          show WitnessSessionName (rigPrefix reg ⟨.witness, RigForPrefix reg p, [],
            p⟩) = s
          rw [rigPrefix_mk reg _ _ _ _ hpne, WitnessSessionName, hseq]
          rw [(by decide : ("-witness".toList : Str) = '-' :: "witness".toList)]
        · rw [if_neg h1] at hp
          by_cases h2 : rest = "refinery".toList
          · rw [if_pos h2] at hp
            injection hp with ha
            subst ha; subst h2
            show RefinerySessionName (rigPrefix reg ⟨.refinery, RigForPrefix reg p,
              [], p⟩) = s
            rw [rigPrefix_mk reg _ _ _ _ hpne, RefinerySessionName, hseq]
            rw [(by decide : ("-refinery".toList : Str) = '-' :: "refinery".toList)]
          · rw [if_neg h2] at hp
            by_cases h3 : rest = "boot".toList
            · rw [if_pos h3] at hp
              injection hp with ha
              exact absurd ⟨by rw [← ha], by rw [← ha], by rw [← ha]; exact hpne⟩ hboot
            · rw [if_neg h3] at hp
              by_cases h4 : "crew-".toList.isPrefixOf rest = true
              · rw [if_pos h4] at hp
                obtain ⟨t, htc⟩ := List.isPrefixOf_iff_prefix.mp h4
                have hdrop : rest.drop 5 = t := by
                  rw [← htc]
                  rw [(by decide : (5 : Nat) = ("crew-".toList : Str).length),
                    List.drop_left]
                rw [hdrop] at hp
                by_cases h6 : t = []
                · rw [if_pos h6] at hp
                  exact Except.noConfusion hp
                · rw [if_neg h6] at hp
                  injection hp with ha
                  subst ha
                  show CrewSessionName (rigPrefix reg ⟨.crew, RigForPrefix reg p, t,
                    p⟩) t = s
                  rw [rigPrefix_mk reg _ _ _ _ hpne, CrewSessionName, hseq, ← htc,
                    List.append_assoc]
                  rw [(by decide : ("-crew-".toList : Str) = '-' :: "crew-".toList)]
                  rfl
              · rw [if_neg h4] at hp
                rw [if_neg hrne] at hp
                injection hp with ha
                subst ha
                show PolecatSessionName (rigPrefix reg ⟨.polecat, RigForPrefix reg p,
                  rest, p⟩) rest = s
                rw [rigPrefix_mk reg _ _ _ _ hpne, PolecatSessionName, hseq,
                  List.append_assoc]
                rw [(by decide : ("-".toList : Str) = ['-'])]
                rfl

theorem parse_shape {reg : Registry} {s : Str} {a : AgentIdentity}
    (hp : ParseSessionName reg s = .ok a) :
    a = ⟨.mayor, [], [], []⟩ ∨
    a = ⟨.deacon, [], [], []⟩ ∨
    a = ⟨.deacon, [], "boot".toList, []⟩ ∨
    a = ⟨.mayor, [], "overseer".toList, []⟩ ∨
    (∃ p, p ≠ [] ∧ a = ⟨.deacon, [], "boot".toList, p⟩) ∨
    (∃ p, p ≠ [] ∧ (a = ⟨.witness, RigForPrefix reg p, [], p⟩ ∨
      a = ⟨.refinery, RigForPrefix reg p, [], p⟩)) ∨
    (∃ p n, p ≠ [] ∧ n ≠ [] ∧ (a = ⟨.crew, RigForPrefix reg p, n, p⟩ ∨
      a = ⟨.polecat, RigForPrefix reg p, n, p⟩)) := by
  by_cases hhq : HQPrefix.isPrefixOf s = true
  · obtain ⟨t, ht⟩ := List.isPrefixOf_iff_prefix.mp hhq
    subst ht
    rw [ParseSessionName_hq] at hp
    by_cases h1 : t = "mayor".toList
    · rw [if_pos h1] at hp
      injection hp with ha
      exact Or.inl ha.symm
    · rw [if_neg h1] at hp
      by_cases h2 : t = "deacon".toList
      · rw [if_pos h2] at hp
        injection hp with ha
        exact Or.inr (Or.inl ha.symm)
      · rw [if_neg h2] at hp
        by_cases h3 : t = "boot".toList
        · rw [if_pos h3] at hp
          injection hp with ha
          exact Or.inr (Or.inr (Or.inl ha.symm))
        · rw [if_neg h3] at hp
          by_cases h4 : t = "overseer".toList
          · rw [if_pos h4] at hp
            injection hp with ha
            exact Or.inr (Or.inr (Or.inr (Or.inl ha.symm)))
          · rw [if_neg h4] at hp
            exact Except.noConfusion hp
  · have hhq' : HQPrefix.isPrefixOf s = false := by
      cases hb : HQPrefix.isPrefixOf s
      · rfl
      · exact absurd hb hhq
    cases hsp : splitFirst '-' s with
    | none =>
      rw [ParseSessionName_noSplit reg hhq' hsp] at hp
      exact Except.noConfusion hp
    | some pr =>
      obtain ⟨p, rest⟩ := pr
      rw [ParseSessionName_split reg hhq' hsp] at hp
      by_cases hpe : p = [] ∨ rest = []
      · rw [if_pos hpe] at hp
        exact Except.noConfusion hp
      · rw [if_neg hpe] at hp
        push_neg at hpe
        obtain ⟨hpne, hrne⟩ := hpe
        simp only [parseRigSession] at hp
        by_cases h1 : rest = "witness".toList
        · rw [if_pos h1] at hp
          injection hp with ha
          exact Or.inr (Or.inr (Or.inr (Or.inr (Or.inr (Or.inl
            ⟨p, hpne, Or.inl ha.symm⟩)))))
        · rw [if_neg h1] at hp
          by_cases h2 : rest = "refinery".toList
          · rw [if_pos h2] at hp
            injection hp with ha
            exact Or.inr (Or.inr (Or.inr (Or.inr (Or.inr (Or.inl
              ⟨p, hpne, Or.inr ha.symm⟩)))))
          · rw [if_neg h2] at hp
            by_cases h3 : rest = "boot".toList
            · rw [if_pos h3] at hp
              injection hp with ha
              exact Or.inr (Or.inr (Or.inr (Or.inr (Or.inl ⟨p, hpne, ha.symm⟩))))
            · rw [if_neg h3] at hp
              by_cases h4 : "crew-".toList.isPrefixOf rest = true
              · rw [if_pos h4] at hp
                by_cases h6 : rest.drop 5 = []
                · rw [if_pos h6] at hp
                  exact Except.noConfusion hp
                · rw [if_neg h6] at hp
                  injection hp with ha
                  exact Or.inr (Or.inr (Or.inr (Or.inr (Or.inr (Or.inr
                    ⟨p, rest.drop 5, hpne, h6, Or.inl ha.symm⟩)))))
              · rw [if_neg h4] at hp
                rw [if_neg hrne] at hp
                injection hp with ha
                exact Or.inr (Or.inr (Or.inr (Or.inr (Or.inr (Or.inr
                  ⟨p, rest, hpne, hrne, Or.inr ha.symm⟩)))))

theorem getLast?_addr2 (ri : Str) {seg : Str} (hs : seg ≠ []) :
    (ri ++ '/' :: seg).getLast? = seg.getLast? := by
  rw [getLast?_append_cons]
  cases seg with
  | nil => exact absurd rfl hs
  | cons y ys => rw [List.getLast?_cons_cons]

theorem getLast?_addr3 (ri kind : Str) {n : Str} (hn : n ≠ []) :
    (ri ++ '/' :: (kind ++ '/' :: n)).getLast? = n.getLast? := by
  rw [getLast?_append_cons,
    show ('/' :: (kind ++ '/' :: n) : Str) = ('/' :: kind) ++ '/' :: n by simp,
    getLast?_append_cons]
  cases n with
  | nil => exact absurd rfl hn
  | cons y ys => rw [List.getLast?_cons_cons]

theorem headNotWs_append {l : Str} (t : Str) (h : l ≠ []) :
    headNotWs (l ++ t) = headNotWs l := by
  unfold headNotWs
  rw [List.head?_append_of_ne_nil _ h]

theorem ParseAddress_witness (reg : Registry) {ri : Str} (h1 : ri ≠ [])
    (h2 : '/' ∉ ri) (h3 : headNotWs ri = true) :
    ParseAddress reg (ri ++ '/' :: "witness".toList) =
      .ok ⟨.witness, ri, [], PrefixForRig reg ri⟩ := by
  have hmem : '/' ∈ ri ++ '/' :: "witness".toList :=
    List.mem_append.mpr (Or.inr (List.mem_cons_self _ _))
  have hgl : (ri ++ '/' :: "witness".toList).getLast? = some 's' := by
    rw [getLast?_addr2 ri (by decide)]
    decide
  have hts : trimSpace (ri ++ '/' :: "witness".toList) = ri ++ '/' :: "witness".toList := by
    apply trimSpace_eq_self
    · rw [show (ri ++ '/' :: "witness".toList : Str) = ri ++ ('/' :: "witness".toList)
        from rfl, headNotWs_append _ h1]
      exact h3
    · unfold lastNotWs
      rw [hgl]
      decide
  rw [ParseAddress_rig reg hts hmem (by rw [hgl]; decide),
    parseRigAddress_two reg h2 (by decide) (by decide), if_pos rfl]

theorem ParseAddress_refinery (reg : Registry) {ri : Str} (h1 : ri ≠ [])
    (h2 : '/' ∉ ri) (h3 : headNotWs ri = true) :
    ParseAddress reg (ri ++ '/' :: "refinery".toList) =
      .ok ⟨.refinery, ri, [], PrefixForRig reg ri⟩ := by
  have hmem : '/' ∈ ri ++ '/' :: "refinery".toList :=
    List.mem_append.mpr (Or.inr (List.mem_cons_self _ _))
  have hgl : (ri ++ '/' :: "refinery".toList).getLast? = some 'y' := by
    rw [getLast?_addr2 ri (by decide)]
    decide
  have hts : trimSpace (ri ++ '/' :: "refinery".toList) =
      ri ++ '/' :: "refinery".toList := by
    apply trimSpace_eq_self
    · rw [headNotWs_append _ h1]
      exact h3
    · unfold lastNotWs
      rw [hgl]
      decide
  rw [ParseAddress_rig reg hts hmem (by rw [hgl]; decide),
    parseRigAddress_two reg h2 (by decide) (by decide), if_neg (by decide),
    if_pos rfl]

theorem ParseAddress_crew (reg : Registry) {ri n : Str} (h1 : ri ≠ [])
    (h2 : '/' ∉ ri) (h3 : headNotWs ri = true) (h4 : n ≠ []) (h5 : '/' ∉ n)
    (h6 : lastNotWs n = true) :
    ParseAddress reg (ri ++ '/' :: ("crew".toList ++ '/' :: n)) =
      .ok ⟨.crew, ri, n, PrefixForRig reg ri⟩ := by
  have hmem : '/' ∈ ri ++ '/' :: ("crew".toList ++ '/' :: n) :=
    List.mem_append.mpr (Or.inr (List.mem_cons_self _ _))
  have hgl : (ri ++ '/' :: ("crew".toList ++ '/' :: n)).getLast? = n.getLast? :=
    getLast?_addr3 ri _ h4
  have hts : trimSpace (ri ++ '/' :: ("crew".toList ++ '/' :: n)) =
      ri ++ '/' :: ("crew".toList ++ '/' :: n) := by
    apply trimSpace_eq_self
    · rw [headNotWs_append _ h1]
      exact h3
    · unfold lastNotWs
      rw [hgl]
      unfold lastNotWs at h6
      exact h6
  have hlast : (ri ++ '/' :: ("crew".toList ++ '/' :: n)).getLast? ≠ some '/' := by
    rw [hgl]
    exact getLast?_ne_of_not_mem h5
  rw [ParseAddress_rig reg hts hmem hlast,
    parseRigAddress_three reg h2 (by decide) h5 h4, if_pos rfl]

theorem ParseAddress_polecats (reg : Registry) {ri n : Str} (h1 : ri ≠ [])
    (h2 : '/' ∉ ri) (h3 : headNotWs ri = true) (h4 : n ≠ []) (h5 : '/' ∉ n)
    (h6 : lastNotWs n = true) :
    ParseAddress reg (ri ++ '/' :: ("polecats".toList ++ '/' :: n)) =
      .ok ⟨.polecat, ri, n, PrefixForRig reg ri⟩ := by
  have hmem : '/' ∈ ri ++ '/' :: ("polecats".toList ++ '/' :: n) :=
    List.mem_append.mpr (Or.inr (List.mem_cons_self _ _))
  have hgl : (ri ++ '/' :: ("polecats".toList ++ '/' :: n)).getLast? = n.getLast? :=
    getLast?_addr3 ri _ h4
  have hts : trimSpace (ri ++ '/' :: ("polecats".toList ++ '/' :: n)) =
      ri ++ '/' :: ("polecats".toList ++ '/' :: n) := by
    apply trimSpace_eq_self
    · rw [headNotWs_append _ h1]
      exact h3
    · unfold lastNotWs
      rw [hgl]
      unfold lastNotWs at h6
      exact h6
  have hlast : (ri ++ '/' :: ("polecats".toList ++ '/' :: n)).getLast? ≠ some '/' := by
    rw [hgl]
    exact getLast?_ne_of_not_mem h5
  rw [ParseAddress_rig reg hts hmem hlast,
    parseRigAddress_three reg h2 (by decide) h5 h4, if_neg (by decide), if_pos rfl]


/-- C1 counterexample: with `gt` registered for `gastown`, `"gt-boot"`
decodes to the boot-watchdog identity carrying prefix `gt`, but re-encoding
yields `"hq-boot"`, which decodes without the prefix — so
`decode(encode(x)) ≠ x` for this identity even though its prefix is
registered (and `"hq-overseer"` fails the same way, re-encoding to
`"hq-mayor"`). -/
theorem roundTrip_fails_on_rig_boot :
    ParseSessionName gtReg "gt-boot".toList =
      .ok ⟨.deacon, [], "boot".toList, "gt".toList⟩ ∧
    RigForPrefix gtReg "gt".toList = "gastown".toList ∧
    ParseSessionName gtReg
        (SessionName gtReg ⟨.deacon, [], "boot".toList, "gt".toList⟩) ≠
      .ok ⟨.deacon, [], "boot".toList, "gt".toList⟩ := by decide

/-- C1 (amended): for every identity obtained from a successful session-name
decode — except the two alias forms the encoders normalize away (watchdog
`boot` decoded with a rig prefix, and coordinator `overseer`) — re-encoding
with `SessionName` and decoding again yields the identical identity, with no
registration requirement; and under the `AddressOK` hygiene conditions
(non-empty slash-free rig consistent with the registry's reverse lookup,
slash-free name, no edge whitespace) the address encoding round-trips the
same way. -/
theorem parse_encode_roundTrip (reg : Registry) (s : Str) (a : AgentIdentity)
    (hp : ParseSessionName reg s = .ok a)
    (hboot : ¬(a.role = .deacon ∧ a.name = "boot".toList ∧ a.pfx ≠ []))
    (hov : ¬(a.role = .mayor ∧ a.name = "overseer".toList)) :
    ParseSessionName reg (SessionName reg a) = .ok a ∧
    (AddressOK reg a → ParseAddress reg (Address a) = .ok a) := by
  refine ⟨by rw [SessionName_of_parse hp hboot hov, hp], fun hok => ?_⟩
  rcases parse_shape hp with h | h | h | h | ⟨p, hpne, h⟩ | ⟨p, hpne, h⟩ |
    ⟨p, n, hpne, hnne, h⟩
  · subst h; rfl
  · subst h; rfl
  · subst h
    exact absurd (show ("boot".toList : Str) = [] from hok) (by decide)
  · subst h
    exact absurd (show ("overseer".toList : Str) = [] from hok) (by decide)
  · subst h
    exact absurd (show ("boot".toList : Str) = [] from hok) (by decide)
  · rcases h with h | h
    · subst h
      simp only [AddressOK] at hok
      obtain ⟨hr1, hr2, hr3, hr4⟩ := hok
      show ParseAddress reg (RigForPrefix reg p ++ '/' :: "witness".toList) = _
      rw [ParseAddress_witness reg hr1 hr2 hr3, hr4]
    · subst h
      simp only [AddressOK] at hok
      obtain ⟨hr1, hr2, hr3, hr4⟩ := hok
      show ParseAddress reg (RigForPrefix reg p ++ '/' :: "refinery".toList) = _
      rw [ParseAddress_refinery reg hr1 hr2 hr3, hr4]
  · rcases h with h | h
    · subst h
      simp only [AddressOK] at hok
      obtain ⟨hr1, hr2, hr3, hr4, hn1, hn2, hn3⟩ := hok
      show ParseAddress reg ((RigForPrefix reg p ++ "/crew/".toList) ++ n) = _
      rw [List.append_assoc]
      show ParseAddress reg
        (RigForPrefix reg p ++ '/' :: ("crew".toList ++ '/' :: n)) = _
      rw [ParseAddress_crew reg hr1 hr2 hr3 hn1 hn2 hn3, hr4]
    · subst h
      simp only [AddressOK] at hok
      obtain ⟨hr1, hr2, hr3, hr4, hn1, hn2, hn3⟩ := hok
      show ParseAddress reg ((RigForPrefix reg p ++ "/polecats/".toList) ++ n) = _
      rw [List.append_assoc]
      show ParseAddress reg
        (RigForPrefix reg p ++ '/' :: ("polecats".toList ++ '/' :: n)) = _
      rw [ParseAddress_polecats reg hr1 hr2 hr3 hn1 hn2 hn3, hr4]

/-- Witness for C1's amended theorem at the crew identity decoded from
`"gt-crew-max"` with `gt` registered for `gastown`. -/
theorem parse_encode_roundTrip_witness :
    ParseSessionName gtReg "gt-crew-max".toList =
      .ok ⟨.crew, "gastown".toList, "max".toList, "gt".toList⟩ ∧
    (ParseSessionName gtReg (SessionName gtReg
        ⟨.crew, "gastown".toList, "max".toList, "gt".toList⟩) =
      .ok ⟨.crew, "gastown".toList, "max".toList, "gt".toList⟩ ∧
    (AddressOK gtReg ⟨.crew, "gastown".toList, "max".toList, "gt".toList⟩ →
      ParseAddress gtReg (Address
          ⟨.crew, "gastown".toList, "max".toList, "gt".toList⟩) =
        .ok ⟨.crew, "gastown".toList, "max".toList, "gt".toList⟩)) :=
  ⟨by decide, parse_encode_roundTrip gtReg "gt-crew-max".toList
    ⟨.crew, "gastown".toList, "max".toList, "gt".toList⟩
    (by decide) (by decide) (by decide)⟩

/-- C5 counterexample: with `gt` registered, `"gt-crew"` — whose rest equals
the reserved keyword `crew` standing alone — is not rejected; the decoder
silently parses it as a worker (polecat) named `"crew"`, contradicting the
claimed explicit ambiguity error. -/
theorem parseSessionName_accepts_bare_crew :
    ParseSessionName gtReg "gt-crew".toList =
      .ok ⟨.polecat, "gastown".toList, "crew".toList, "gt".toList⟩ := by decide

/-- C5 (amended): a rest equal to a reserved keyword standing alone is never
an error: `witness`, `refinery` and `boot` decode to their reserved roles
(so a bare worker with those names is silently shadowed, never produced),
and a bare `crew` silently decodes as a worker named `"crew"` through the
fallback branch — the decoder resolves the ambiguity by priority order
rather than rejecting. -/
theorem parseSessionName_reserved_rest (reg : Registry) {p : Str}
    (hd : '-' ∉ p) (hp : p ≠ []) (hhq : p ≠ "hq".toList) :
    ParseSessionName reg (p ++ "-witness".toList) =
      .ok ⟨.witness, RigForPrefix reg p, [], p⟩ ∧
    ParseSessionName reg (p ++ "-refinery".toList) =
      .ok ⟨.refinery, RigForPrefix reg p, [], p⟩ ∧
    ParseSessionName reg (p ++ "-boot".toList) =
      .ok ⟨.deacon, [], "boot".toList, p⟩ ∧
    ParseSessionName reg (p ++ "-crew".toList) =
      .ok ⟨.polecat, RigForPrefix reg p, "crew".toList, p⟩ := by
  refine ⟨?_, ?_, ?_, ?_⟩
  · show ParseSessionName reg (p ++ '-' :: "witness".toList) = _
    rw [ParseSessionName_rig reg hd hp (by decide) hhq]
    rfl
  · show ParseSessionName reg (p ++ '-' :: "refinery".toList) = _
    rw [ParseSessionName_rig reg hd hp (by decide) hhq]
    rfl
  · show ParseSessionName reg (p ++ '-' :: "boot".toList) = _
    rw [ParseSessionName_rig reg hd hp (by decide) hhq]
    rfl
  · show ParseSessionName reg (p ++ '-' :: "crew".toList) = _
    rw [ParseSessionName_rig reg hd hp (by decide) hhq]
    rfl

/-- Witness for C5's amended theorem at prefix `gt`. -/
theorem parseSessionName_reserved_rest_witness :
    ParseSessionName gtReg ("gt".toList ++ "-witness".toList) =
      .ok ⟨.witness, RigForPrefix gtReg "gt".toList, [], "gt".toList⟩ ∧
    ParseSessionName gtReg ("gt".toList ++ "-refinery".toList) =
      .ok ⟨.refinery, RigForPrefix gtReg "gt".toList, [], "gt".toList⟩ ∧
    ParseSessionName gtReg ("gt".toList ++ "-boot".toList) =
      .ok ⟨.deacon, [], "boot".toList, "gt".toList⟩ ∧
    ParseSessionName gtReg ("gt".toList ++ "-crew".toList) =
      .ok ⟨.polecat, RigForPrefix gtReg "gt".toList, "crew".toList, "gt".toList⟩ :=
  parseSessionName_reserved_rest gtReg (by decide) (by decide) (by decide)

/-- C7: an unregistered prefix is never a parse error — the session-name
decoder's success, role, name and (verbatim) prefix are all independent of
the registry (erasing the rig field makes the parse agree with a parse
against the empty registry, on successes and failures alike), and whenever
the decoded prefix has no registry entry the Rig field is empty. -/
theorem parseSessionName_registry_independent (reg : Registry) (s : Str) :
    Except.map eraseRig (ParseSessionName reg s) =
      ParseSessionName emptyRegistry s ∧
    (∀ a, ParseSessionName reg s = .ok a → RigForPrefix reg a.pfx = [] →
      a.rig = []) := by
  constructor
  · by_cases hhq : HQPrefix.isPrefixOf s = true
    · obtain ⟨t, ht⟩ := List.isPrefixOf_iff_prefix.mp hhq
      subst ht
      rw [ParseSessionName_hq, ParseSessionName_hq]
      split_ifs <;> rfl
    · have hhq' : HQPrefix.isPrefixOf s = false := by
        cases hb : HQPrefix.isPrefixOf s
        · rfl
        · exact absurd hb hhq
      cases hsp : splitFirst '-' s with
      | none =>
        rw [ParseSessionName_noSplit reg hhq' hsp,
          ParseSessionName_noSplit emptyRegistry hhq' hsp]
        rfl
      | some pr =>
        obtain ⟨p, rest⟩ := pr
        rw [ParseSessionName_split reg hhq' hsp,
          ParseSessionName_split emptyRegistry hhq' hsp]
        by_cases hpe : p = [] ∨ rest = []
        · rw [if_pos hpe, if_pos hpe]
          rfl
        · rw [if_neg hpe, if_neg hpe]
          simp only [parseRigSession]
          split_ifs <;> rfl
  · intro a hpa hr
    rcases parse_shape hpa with h | h | h | h | ⟨p, hpne, h⟩ | ⟨p, hpne, h⟩ |
      ⟨p, n, hpne, hnne, h⟩
    · subst h; rfl
    · subst h; rfl
    · subst h; rfl
    · subst h; rfl
    · subst h; rfl
    · rcases h with h | h <;> subst h <;> exact hr
    · rcases h with h | h <;> subst h <;> exact hr

/-- Witness for C7 at `"xyz-witness"` with `xyz` unregistered in `gtReg`. -/
theorem parseSessionName_registry_independent_witness :
    (Except.map eraseRig (ParseSessionName gtReg "xyz-witness".toList) =
      ParseSessionName emptyRegistry "xyz-witness".toList) ∧
    (∀ a, ParseSessionName gtReg "xyz-witness".toList = .ok a →
      RigForPrefix gtReg a.pfx = [] → a.rig = []) :=
  parseSessionName_registry_independent gtReg "xyz-witness".toList

/-- C8: the address decoder maps `project/crew/name` to a Crew identity and
`project/polecats/name` to a Worker (polecat) identity; a two-segment
address whose second segment is the bare kind word `crew` or `polecats`
fails with an invalid-address error; the literal `"overseer"` is explicitly
rejected; and any other two-segment `project/name` is the canonical worker
shorthand, decoding to a polecat — all under the hygiene hypotheses that
segments are non-empty, slash-free and have no edge whitespace. -/
theorem parseAddress_cases (reg : Registry) {ri n : Str} (h1 : ri ≠ [])
    (h2 : '/' ∉ ri) (h3 : headNotWs ri = true) (h4 : n ≠ []) (h5 : '/' ∉ n)
    (h6 : lastNotWs n = true)
    (h7 : n ≠ "witness".toList) (h8 : n ≠ "refinery".toList)
    (h9 : n ≠ "crew".toList) (h10 : n ≠ "polecats".toList) :
    ParseAddress reg (ri ++ '/' :: ("crew".toList ++ '/' :: n)) =
      .ok ⟨.crew, ri, n, PrefixForRig reg ri⟩ ∧
    ParseAddress reg (ri ++ '/' :: ("polecats".toList ++ '/' :: n)) =
      .ok ⟨.polecat, ri, n, PrefixForRig reg ri⟩ ∧
    ParseAddress reg (ri ++ '/' :: "crew".toList) =
      .error (.invalidAddress (ri ++ '/' :: "crew".toList)) ∧
    ParseAddress reg (ri ++ '/' :: "polecats".toList) =
      .error (.invalidAddress (ri ++ '/' :: "polecats".toList)) ∧
    ParseAddress reg "overseer".toList = .error .overseerNoSession ∧
    ParseAddress reg (ri ++ '/' :: n) =
      .ok ⟨.polecat, ri, n, PrefixForRig reg ri⟩ := by
  refine ⟨ParseAddress_crew reg h1 h2 h3 h4 h5 h6,
    ParseAddress_polecats reg h1 h2 h3 h4 h5 h6, ?_, ?_, rfl, ?_⟩
  · have hgl : (ri ++ '/' :: "crew".toList).getLast? = some 'w' := by
      rw [getLast?_addr2 ri (by decide)]
      decide
    have hts : trimSpace (ri ++ '/' :: "crew".toList) =
        ri ++ '/' :: "crew".toList := by
      apply trimSpace_eq_self
      · rw [headNotWs_append _ h1]
        exact h3
      · unfold lastNotWs
        rw [hgl]
        decide
    rw [ParseAddress_rig reg hts
        (List.mem_append.mpr (Or.inr (List.mem_cons_self _ _)))
        (by rw [hgl]; decide),
      parseRigAddress_two reg h2 (by decide) (by decide),
      if_neg (by decide), if_neg (by decide), if_pos (Or.inl rfl)]
  · have hgl : (ri ++ '/' :: "polecats".toList).getLast? = some 's' := by
      rw [getLast?_addr2 ri (by decide)]
      decide
    have hts : trimSpace (ri ++ '/' :: "polecats".toList) =
        ri ++ '/' :: "polecats".toList := by
      apply trimSpace_eq_self
      · rw [headNotWs_append _ h1]
        exact h3
      · unfold lastNotWs
        rw [hgl]
        decide
    rw [ParseAddress_rig reg hts
        (List.mem_append.mpr (Or.inr (List.mem_cons_self _ _)))
        (by rw [hgl]; decide),
      parseRigAddress_two reg h2 (by decide) (by decide),
      if_neg (by decide), if_neg (by decide), if_pos (Or.inr rfl)]
  · have hgl : (ri ++ '/' :: n).getLast? = n.getLast? := getLast?_addr2 ri h4
    have hts : trimSpace (ri ++ '/' :: n) = ri ++ '/' :: n := by
      apply trimSpace_eq_self
      · rw [headNotWs_append _ h1]
        exact h3
      · unfold lastNotWs
        rw [hgl]
        unfold lastNotWs at h6
        exact h6
    rw [ParseAddress_rig reg hts
        (List.mem_append.mpr (Or.inr (List.mem_cons_self _ _)))
        (by rw [hgl]; exact getLast?_ne_of_not_mem h5),
      parseRigAddress_two reg h2 h5 h4,
      if_neg h7, if_neg h8, if_neg (not_or.mpr ⟨h9, h10⟩)]

/-- Witness for C8 with project `gastown` and name `max`. -/
theorem parseAddress_cases_witness :
    ParseAddress gtReg ("gastown".toList ++ '/' :: ("crew".toList ++ '/' ::
        "max".toList)) =
      .ok ⟨.crew, "gastown".toList, "max".toList,
        PrefixForRig gtReg "gastown".toList⟩ ∧
    ParseAddress gtReg ("gastown".toList ++ '/' :: ("polecats".toList ++ '/' ::
        "max".toList)) =
      .ok ⟨.polecat, "gastown".toList, "max".toList,
        PrefixForRig gtReg "gastown".toList⟩ ∧
    ParseAddress gtReg ("gastown".toList ++ '/' :: "crew".toList) =
      .error (.invalidAddress ("gastown".toList ++ '/' :: "crew".toList)) ∧
    ParseAddress gtReg ("gastown".toList ++ '/' :: "polecats".toList) =
      .error (.invalidAddress ("gastown".toList ++ '/' :: "polecats".toList)) ∧
    ParseAddress gtReg "overseer".toList = .error .overseerNoSession ∧
    ParseAddress gtReg ("gastown".toList ++ '/' :: "max".toList) =
      .ok ⟨.polecat, "gastown".toList, "max".toList,
        PrefixForRig gtReg "gastown".toList⟩ :=
  parseAddress_cases gtReg (by decide) (by decide) (by decide) (by decide)
    (by decide) (by decide) (by decide) (by decide) (by decide) (by decide)
theorem splitFirst_eq_none {c : Char} :
    ∀ {s : Str}, c ∉ s → splitFirst c s = none := by
  intro s
  induction s with
  | nil => intro _; rfl
  | cons x xs ih =>
    intro h
    have hx : x ≠ c := by rintro rfl; exact h (List.mem_cons_self _ _)
    have hxs : c ∉ xs := fun hc => h (List.mem_cons_of_mem _ hc)
    rw [splitFirst, if_neg hx, ih hxs]

/-- C9: every malformed session name is a descriptive parse failure, never a
best-effort identity (and the embedding is a total function, so no panic is
possible): a name with no `-` separator, an empty prefix before the
separator, an empty remainder after the prefix, and an empty crew name after
the `crew-` marker each return the corresponding typed error carrying the
offending string. -/
theorem parseSessionName_malformed (reg : Registry) :
    (∀ s : Str, '-' ∉ s →
      ParseSessionName reg s = .error (.noSeparator s)) ∧
    (∀ rest : Str, ParseSessionName reg ('-' :: rest) =
      .error (.noSeparator ('-' :: rest))) ∧
    (∀ p : Str, '-' ∉ p → p ≠ [] → p ≠ "hq".toList →
      ParseSessionName reg (p ++ ['-']) = .error (.noSeparator (p ++ ['-']))) ∧
    (∀ p : Str, '-' ∉ p → p ≠ [] → p ≠ "hq".toList →
      ParseSessionName reg (p ++ "-crew-".toList) =
        .error (.emptyCrewName (p ++ "-crew-".toList))) := by
  refine ⟨fun s hnd => ?_, fun rest => ?_, fun p hd hpne hhq => ?_,
    fun p hd hpne hhq => ?_⟩
  · have hhq : HQPrefix.isPrefixOf s = false := by
      cases hb : HQPrefix.isPrefixOf s
      · rfl
      · obtain ⟨t, ht⟩ := List.isPrefixOf_iff_prefix.mp hb
        subst ht
        exact absurd (by decide : '-' ∈ (HQPrefix : Str))
          (fun hc => hnd (List.mem_append.mpr (Or.inl hc)))
    rw [ParseSessionName_noSplit reg hhq (splitFirst_eq_none hnd)]
  · have hhq : HQPrefix.isPrefixOf ('-' :: rest) = false := rfl
    have hsp : splitFirst '-' ('-' :: rest) = some ([], rest) := rfl
    rw [ParseSessionName_split reg hhq hsp, if_pos (Or.inl rfl)]
  · have hhq2 : HQPrefix.isPrefixOf (p ++ '-' :: []) = false := by
      cases hb : HQPrefix.isPrefixOf (p ++ '-' :: [])
      · rfl
      · exact absurd ((hq_isPrefixOf_append [] hd).mp hb) hhq
    rw [show (p ++ ['-'] : Str) = p ++ '-' :: [] from rfl,
      ParseSessionName_split reg hhq2 (splitFirst_append [] hd),
      if_pos (Or.inr rfl)]
  · show ParseSessionName reg (p ++ '-' :: "crew-".toList) =
      .error (.emptyCrewName (p ++ '-' :: "crew-".toList))
    rw [ParseSessionName_rig reg hd hpne (by decide) hhq]
    rfl

/-- Witness for C9 at `"gastown"`, `"-x"`, `"gt-"` and `"gt-crew-"`. -/
theorem parseSessionName_malformed_witness :
    ParseSessionName gtReg "gastown".toList =
      .error (.noSeparator "gastown".toList) ∧
    ParseSessionName gtReg ('-' :: "x".toList) =
      .error (.noSeparator ('-' :: "x".toList)) ∧
    ParseSessionName gtReg ("gt".toList ++ ['-']) =
      .error (.noSeparator ("gt".toList ++ ['-'])) ∧
    ParseSessionName gtReg ("gt".toList ++ "-crew-".toList) =
      .error (.emptyCrewName ("gt".toList ++ "-crew-".toList)) :=
  ⟨(parseSessionName_malformed gtReg).1 "gastown".toList (by decide),
    (parseSessionName_malformed gtReg).2.1 "x".toList,
    (parseSessionName_malformed gtReg).2.2.1 "gt".toList (by decide) (by decide)
      (by decide),
    (parseSessionName_malformed gtReg).2.2.2 "gt".toList (by decide) (by decide)
      (by decide)⟩

/-- C10: `ParseAddress` is invariant under stripping leading/trailing
whitespace from its input (it trims internally, and trimming is
idempotent), and an all-whitespace or empty address fails with the
empty-address error; `ParseSessionName` performs no such trimming — a
leading whitespace character is kept verbatim and ends up at the front of
the decoded prefix, so `" gt-x"` and its trimmed form parse differently. -/
theorem parseAddress_trims_sessionName_verbatim (reg : Registry) (s : Str) :
    ParseAddress reg s = ParseAddress reg (trimSpace s) ∧
    (trimSpace s = [] → ParseAddress reg s = .error .emptyAddress) ∧
    (∀ (c : Char) (rest : Str) (a : AgentIdentity), c.isWhitespace = true →
      ParseSessionName reg (c :: rest) = .ok a → ∃ t, a.pfx = c :: t) ∧
    ParseSessionName emptyRegistry (' ' :: "gt-x".toList) ≠
      ParseSessionName emptyRegistry (trimSpace (' ' :: "gt-x".toList)) := by
  refine ⟨?_, fun h => ?_, fun c rest a hws hp => ?_, by decide⟩
  · simp only [ParseAddress, trimSpace_idem]
  · simp [ParseAddress, h]
  · have hch : c ≠ 'h' := by
      rintro rfl
      exact absurd hws (by decide)
    have hdash : c ≠ '-' := by
      rintro rfl
      exact absurd hws (by decide)
    have hb : ('h' == c) = false := beq_eq_false_iff_ne.mpr (fun he => hch he.symm)
    have hhq : HQPrefix.isPrefixOf (c :: rest) = false := by
      show (('h' == c) && List.isPrefixOf ['q', '-'] rest) = false
      rw [hb, Bool.false_and]
    cases hsp : splitFirst '-' rest with
    | none =>
      have hsp2 : splitFirst '-' (c :: rest) = none := by
        rw [splitFirst, if_neg hdash, hsp]
      rw [ParseSessionName_noSplit reg hhq hsp2] at hp
      exact Except.noConfusion hp
    | some pr =>
      obtain ⟨p', r'⟩ := pr
      have hsp2 : splitFirst '-' (c :: rest) = some (c :: p', r') := by
        rw [splitFirst, if_neg hdash, hsp]
      rw [ParseSessionName_split reg hhq hsp2] at hp
      by_cases hpe : c :: p' = [] ∨ r' = []
      · rw [if_pos hpe] at hp
        exact Except.noConfusion hp
      · rw [if_neg hpe] at hp
        simp only [parseRigSession] at hp
        split_ifs at hp <;>
          first
            | exact Except.noConfusion hp
            | (injection hp with ha; exact ⟨p', by rw [← ha]⟩)

/-- Witness for C10 at `"  gastown/nux  "`. -/
theorem parseAddress_trims_sessionName_verbatim_witness :
    (ParseAddress gtReg "  gastown/nux  ".toList =
      ParseAddress gtReg (trimSpace "  gastown/nux  ".toList)) ∧
    (trimSpace "  gastown/nux  ".toList = [] →
      ParseAddress gtReg "  gastown/nux  ".toList = .error .emptyAddress) ∧
    (∀ (c : Char) (rest : Str) (a : AgentIdentity), c.isWhitespace = true →
      ParseSessionName gtReg (c :: rest) = .ok a → ∃ t, a.pfx = c :: t) ∧
    ParseSessionName emptyRegistry (' ' :: "gt-x".toList) ≠
      ParseSessionName emptyRegistry (trimSpace (' ' :: "gt-x".toList)) :=
  parseAddress_trims_sessionName_verbatim gtReg "  gastown/nux  ".toList
